import Mathlib

/-!
# Verification of `scripts/bench_compare.py`

A shallow embedding of the benchmark-regression gate in
`scripts/bench_compare.py`, together with theorems settling the
specification claims about it.

Modelling conventions:
* A Python text line is a `List Char`; a report file is a `List (List Char)`.
* The regex `^test\s+(\S+)\s+.*\s+bench:\s+([\d,]+)\s+ns\/iter` of
  `parse_bencher` is embedded as a deterministic matcher (`parseLine`).
  Backtracking is resolved exactly as Python's leftmost/greedy engine does:
  `\s+` runs that are immediately followed by a disjoint character class are
  forced to be maximal, `(\S+)` and `([\d,]+)` are maximal runs, and the
  greedy `.*` selects the rightmost occurrence of the `bench:` tail that
  completes a match (`findBench`).  `\s` and `\d` are modelled by their
  ASCII fragments.
* A Python dict is an association list with insertion order and
  last-write-wins overwrite (`dictInsert`); keys are unique by construction.
* Python's `int(s)` on the comma-stripped capture is `pyInt`: it fails
  (raises `ValueError`) on the empty string, which is reachable because
  `[\d,]+` also matches a run of commas.  Fallible steps are `Except Unit`;
  `Except.error ()` models an uncaught Python exception, which terminates
  the interpreter with OS exit status 1.
* Exact float arithmetic of the relative delta is modelled over `ℚ`
  (the code divides two exact integers and compares against 0.10 / -0.05).
* Each `print` statement of the script is one constructor of `OutLine`,
  so the emitted report is a `List OutLine`.
-/

namespace BenchCompare

/-- ASCII fragment of the Python regex class `\s`. -/
def isSpaceChar (ch : Char) : Bool :=
  ch = ' ' || ch = '\t' || ch = '\n' || ch = '\x0d' || ch = '\x0b' || ch = '\x0c'

/-- The regex class `[\d,]` (ASCII fragment of `\d`, plus the comma). -/
def isDigitComma (ch : Char) : Bool :=
  ch.isDigit || ch = ','

/-- All characters of `r` in index range `[i, j)` are whitespace. -/
def allWs (r : List Char) (i j : Nat) : Bool :=
  ((r.drop i).take (j - i)).all isSpaceChar

/-- No character of `r` in index range `[i, j)` is a newline (the region a
regex `.` may span). -/
def noNl (r : List Char) (i j : Nat) : Bool :=
  ((r.drop i).take (j - i)).all (fun ch => ch ≠ '\n')

/-- `canReach r c` iff the regex fragment `\s+.*\s+` can match exactly the
character range `[0, c)` of `r`: a nonempty whitespace run `[0, a)`, a
newline-free region `[a, b)` for `.*`, and a nonempty whitespace run
`[b, c)`. -/
def canReach (r : List Char) (c : Nat) : Bool :=
  (List.range c).any fun b =>
    allWs r b c && (List.range (b + 1)).any fun a =>
      decide (1 ≤ a) && decide (a ≤ b) && allWs r 0 a && noNl r a b

/-- Match of the regex tail `bench:\s+([\d,]+)\s+ns\/iter` at the start of
`u`, returning the text captured by `([\d,]+)`.  All three runs are forced
maximal by greediness (each is followed by a disjoint character class). -/
def benchAt (u : List Char) : Option (List Char) :=
  match u with
  | 'b' :: 'e' :: 'n' :: 'c' :: 'h' :: ':' :: c0 :: v0 =>
    if isSpaceChar c0 then
      let v1 := v0.dropWhile isSpaceChar
      let d := v1.takeWhile isDigitComma
      if d.isEmpty then none
      else
        match v1.drop d.length with
        | c1 :: w0 =>
          if isSpaceChar c1 then
            if (w0.dropWhile isSpaceChar).take 7 = ['n', 's', '/', 'i', 't', 'e', 'r'] then
              some d
            else none
          else none
        | [] => none
    else none
  | _ => none

/-- Match of `\s+.*\s+bench:\s+([\d,]+)\s+ns\/iter` against a prefix of `r`:
the greedy `.*` selects the rightmost offset `c` at which the `bench:` tail
completes a match and which the `\s+.*\s+` prefix can reach. -/
def findBench (r : List Char) : Option (List Char) :=
  ((List.range (r.length + 1)).reverse).findSome? fun c =>
    if canReach r c then benchAt (r.drop c) else none

/-- `re.match` of the full pattern against one line: literal `test` at the
very start, a whitespace run, the maximal `\S+` name capture, then the
`findBench` tail.  Returns the two captured groups. -/
def parseLine (s : List Char) : Option (String × List Char) :=
  match s with
  | 't' :: 'e' :: 's' :: 't' :: c0 :: r0 =>
    if isSpaceChar c0 then
      let r1 := r0.dropWhile isSpaceChar
      let name := r1.takeWhile (fun ch => !(isSpaceChar ch))
      if name.isEmpty then none
      else
        match findBench (r1.drop name.length) with
        | some d => some (String.mk name, d)
        | none => none
    else none
  | _ => none

/-- `m.group(2).replace(",", "")`. -/
def stripCommas (d : List Char) : List Char :=
  d.filter (fun ch => ch ≠ ',')

/-- Decimal value of a string of digit characters. -/
def digitsToNat (d : List Char) : Nat :=
  d.foldl (fun acc ch => acc * 10 + (ch.toNat - '0'.toNat)) 0

/-- Python `int` on a (possibly empty) string of decimal digits: raises
`ValueError` on the empty string. -/
def pyInt (d : List Char) : Option Nat :=
  if d.isEmpty then none else some (digitsToNat d)

/-- Python dict assignment `results[name] = ns`: overwrite in place if the
key is present, else append. -/
def dictInsert (d : List (String × Nat)) (k : String) (v : Nat) :
    List (String × Nat) :=
  if d.any (fun p => p.1 == k) then
    d.map (fun p => if p.1 == k then (k, v) else p)
  else d ++ [(k, v)]

/-- One iteration of the loop body of `parse_bencher` on one line;
`Except.error ()` is the `ValueError` raised by `int("")` when the captured
group consists solely of commas. -/
def processLine (acc : List (String × Nat)) (l : List Char) :
    Except Unit (List (String × Nat)) :=
  match parseLine l with
  | none => Except.ok acc
  | some (n, d) =>
    match pyInt (stripCommas d) with
    | none => Except.error ()
    | some v => Except.ok (dictInsert acc n v)

/-- `parse_bencher(lines)`. -/
def parse_bencher (lines : List (List Char)) :
    Except Unit (List (String × Nat)) :=
  lines.foldlM processLine []

/-- `REGRESSION_THRESHOLD = 0.10`. -/
def REGRESSION_THRESHOLD : ℚ := 1 / 10

/-- The improvement-highlight threshold `-0.05` of the `elif` branch. -/
def IMPROVEMENT_THRESHOLD : ℚ := -(1 / 20)

/-- `delta = (curr_ns - base_ns) / base_ns if base_ns > 0 else 0`. -/
def deltaOf (base curr : Nat) : ℚ :=
  if 0 < base then ((curr : ℚ) - (base : ℚ)) / (base : ℚ) else 0

/-- The inline marker appended to a matched row. -/
inductive Marker where
  | regression : Marker
  | faster : Marker
  | neutral : Marker
deriving DecidableEq

/-- Marker selection for a matched row. -/
def markerOf (delta : ℚ) : Marker :=
  if REGRESSION_THRESHOLD < delta then Marker.regression
  else if delta < IMPROVEMENT_THRESHOLD then Marker.faster
  else Marker.neutral

/-- One printed line of the script, one constructor per `print` call. -/
inductive OutLine where
  | usage : OutLine
  | noBaseline : OutLine
  | header : OutLine
  | columnHeader : OutLine
  | separator : OutLine
  | missingRow (name : String) (base : Nat) : OutLine
  | matchedRow (name : String) (base curr : Nat) (delta : ℚ) (mark : Marker) : OutLine
  | newRow (name : String) (curr : Nat) : OutLine
  | blank : OutLine
  | failSummary (count : Nat) : OutLine
  | failItem (name : String) (delta : ℚ) : OutLine
  | passLine : OutLine
deriving DecidableEq

/-- The benchmark name carried by a row line, if any. -/
def rowNameOf : OutLine → Option String
  | OutLine.missingRow n _ => some n
  | OutLine.matchedRow n _ _ _ _ => some n
  | OutLine.newRow n _ => some n
  | _ => none

/-- The order in which `sorted(baseline.items())` enumerates the entries:
ascending by key.  Keys are unique within a report, so comparing keys alone
agrees with Python's tuple comparison.  (Modelled by a stable structural
sort, matching Python's stable `sorted`.) -/
def sortPairs (b : List (String × Nat)) : List (String × Nat) :=
  List.insertionSort (fun p q => p.1 ≤ q.1) b

/-- `sorted(...)` on a list of names. -/
def sortNames (l : List String) : List String :=
  List.insertionSort (fun a b => a ≤ b) l

/-- The row printed for one baseline entry (missing or matched). -/
def rowFor (c : List (String × Nat)) (p : String × Nat) : OutLine :=
  match List.lookup p.1 c with
  | none => OutLine.missingRow p.1 p.2
  | some curr =>
    OutLine.matchedRow p.1 p.2 curr (deltaOf p.2 curr) (markerOf (deltaOf p.2 curr))

/-- The rows of the `for name, base_ns in sorted(baseline.items())` loop. -/
def baselineRows (b c : List (String × Nat)) : List OutLine :=
  (sortPairs b).map (rowFor c)

/-- `set(current.keys()) - set(baseline.keys())` as a duplicate-free list. -/
def newKeys (b c : List (String × Nat)) : List String :=
  ((c.map Prod.fst).filter (fun n => (List.lookup n b).isNone)).dedup

/-- The rows of the `for name in sorted(set(current) - set(baseline))`
loop. -/
def newRows (b c : List (String × Nat)) : List OutLine :=
  (sortNames (newKeys b c)).map (fun n => OutLine.newRow n ((List.lookup n c).getD 0))

/-- The contribution of one baseline entry to the `regressions` list. -/
def regrOf (c : List (String × Nat)) (p : String × Nat) : Option (String × ℚ) :=
  match List.lookup p.1 c with
  | none => none
  | some curr =>
    if REGRESSION_THRESHOLD < deltaOf p.2 curr then some (p.1, deltaOf p.2 curr)
    else none

/-- The `regressions` list accumulated by the matched-pair loop. -/
def regressionsList (b c : List (String × Nat)) : List (String × ℚ) :=
  (sortPairs b).filterMap (regrOf c)

/-- The final summary block: failure listing and `sys.exit(1)`, or the
success line. -/
def summaryOf (b c : List (String × Nat)) : List OutLine :=
  let rs := regressionsList b c
  if rs.isEmpty then [OutLine.passLine]
  else OutLine.failSummary rs.length :: rs.map (fun r => OutLine.failItem r.1 r.2)

/-- The comparison/reporting phase of `main` after both files parsed:
the emitted lines and the exit code. -/
def compareReports (b c : List (String × Nat)) : List OutLine × Nat :=
  if b.isEmpty then ([OutLine.noBaseline], 0)
  else
    ([OutLine.header, OutLine.columnHeader, OutLine.separator]
       ++ baselineRows b c ++ newRows b c ++ [OutLine.blank] ++ summaryOf b c,
     if (regressionsList b c).isEmpty then 0 else 1)

/-- `main()`: `fs` maps a path to the lines `f.readlines()` yields.
`Except.error ()` is an uncaught exception escaping `main`. -/
def runMain (argv : List String) (fs : String → List (List Char)) :
    Except Unit (List OutLine × Nat) :=
  if argv.length ≠ 3 then Except.ok ([OutLine.usage], 1)
  else do
    let b ← parse_bencher (fs (argv.getD 1 ""))
    let c ← parse_bencher (fs (argv.getD 2 ""))
    Except.ok (compareReports b c)

/-- OS-level exit status of the process: an uncaught Python exception makes
the interpreter exit with status 1. -/
def osExitCode (r : Except Unit (List OutLine × Nat)) : Nat :=
  match r with
  | Except.error _ => 1
  | Except.ok (_, code) => code

/-- A line the regex matches with duration group `","`: `int("")` then
raises `ValueError`. -/
def poisonLine : List Char := "test foo x bench: , ns/iter".toList

/-- A benign matching line. -/
def goodLine : List Char := "test foo x bench: 1,200 ns/iter".toList

/-- A filesystem in which the baseline file holds the poison line. -/
def fsPoisonBase : String → List (List Char) :=
  fun p => if p = "base.txt" then [poisonLine] else []

/-- A filesystem in which the current file holds the poison line while the
baseline file is empty. -/
def fsPoisonCur : String → List (List Char) :=
  fun p => if p = "cur.txt" then [poisonLine] else []

/-- The lines named in claim C10: a single whitespace character between the
name and `bench:`, two spaces, two tabs, a leading space, and a first token
that merely starts with `test`. -/
def oneSpaceLine : List Char := "test foo bench: 100 ns/iter".toList

def twoSpaceLine : List Char := "test foo  bench: 100 ns/iter".toList

def tabGapLine : List Char := "test foo\t\tbench: 55 ns/iter".toList

def leadingSpaceLine : List Char := " test foo x bench: 1 ns/iter".toList

def gluedTestLine : List Char := "testx foo x bench: 1 ns/iter".toList

/-- A line whose first `bench:` occurrence is only one whitespace character
away from the name, but which carries a second `bench:` occurrence that the
greedy `.*` can reach. -/
def doubleBenchLine : List Char := "test foo bench: 1 ns/iter bench: 2 ns/iter".toList

/-- All names appearing in some row of the emitted report. -/
def reportNames (b c : List (String × Nat)) : List String :=
  (baselineRows b c ++ newRows b c).filterMap rowNameOf

/-! ## Supporting lemmas -/

theorem lookup_eq_some_of_mem_nodup :
    ∀ {b : List (String × Nat)}, (b.map Prod.fst).Nodup →
      ∀ {p : String × Nat}, p ∈ b → List.lookup p.1 b = some p.2 := by
  intro b
  induction b with
  | nil => intro _ p hp; cases hp
  | cons q t ih =>
    obtain ⟨a, w⟩ := q
    intro hb p hp
    simp only [List.map_cons, List.nodup_cons] at hb
    rcases List.mem_cons.mp hp with hpq | hpt
    · subst hpq
      rw [List.lookup_cons]
      simp
    · rw [List.lookup_cons]
      have hne : (p.1 == a) = false := by
        refine beq_false_of_ne ?_
        intro hcontr
        exact hb.1 (hcontr ▸ List.mem_map_of_mem Prod.fst hpt)
      simp only [hne]
      exact ih hb.2 hpt

theorem mem_of_lookup_eq_some :
    ∀ {b : List (String × Nat)} {k : String} {v : Nat},
      List.lookup k b = some v → (k, v) ∈ b := by
  intro b
  induction b with
  | nil => intro k v h; simp at h
  | cons q t ih =>
    obtain ⟨a, w⟩ := q
    intro k v h
    rw [List.lookup_cons] at h
    cases hka : (k == a) with
    | false =>
      simp only [hka] at h
      exact List.mem_cons_of_mem _ (ih h)
    | true =>
      simp only [hka] at h
      have hak : k = a := beq_iff_eq.mp hka
      subst hak
      cases h
      exact List.mem_cons_self _ _

theorem lookup_eq_none_iff_not_mem {b : List (String × Nat)} {k : String} :
    List.lookup k b = none ↔ k ∉ b.map Prod.fst := by
  rw [List.lookup_eq_none_iff]
  constructor
  · intro h hk
    rcases List.mem_map.mp hk with ⟨p, hp, hpk⟩
    exact absurd (beq_iff_eq.mpr hpk.symm) (by simpa using h p hp)
  · intro h p hp
    simp only [bne_iff_ne, ne_eq]
    intro hck
    exact h (List.mem_map.mpr ⟨p, hp, hck.symm⟩)

instance : IsTotal (String × Nat) (fun p q => p.1 ≤ q.1) :=
  ⟨fun p q => le_total p.1 q.1⟩

instance : IsTrans (String × Nat) (fun p q => p.1 ≤ q.1) :=
  ⟨fun _ _ _ hpq hqr => le_trans hpq hqr⟩

theorem sortPairs_perm (b : List (String × Nat)) : (sortPairs b).Perm b :=
  List.perm_insertionSort _ b

theorem sortPairs_pairwise (b : List (String × Nat)) :
    (sortPairs b).Pairwise (fun p q : String × Nat => p.1 ≤ q.1) :=
  List.sorted_insertionSort _ b

theorem sortNames_perm (l : List String) : (sortNames l).Perm l :=
  List.perm_insertionSort _ l

theorem sortNames_pairwise (l : List String) :
    (sortNames l).Pairwise (· ≤ ·) :=
  List.sorted_insertionSort _ l

theorem pairwise_lt_of_le_nodup {l : List String}
    (h1 : l.Pairwise (· ≤ ·)) (h2 : l.Nodup) : l.Pairwise (· < ·) :=
  (h1.and h2).imp (fun h => lt_of_le_of_ne h.1 h.2)

theorem rowNameOf_rowFor (c : List (String × Nat)) (p : String × Nat) :
    rowNameOf (rowFor c p) = some p.1 := by
  unfold rowFor
  cases List.lookup p.1 c <;> rfl

theorem filterMap_rowNameOf_map_rowFor (c : List (String × Nat)) :
    ∀ l : List (String × Nat),
      (l.map (rowFor c)).filterMap rowNameOf = l.map Prod.fst := by
  intro l
  induction l with
  | nil => rfl
  | cons p t ih =>
    simp only [List.map_cons, List.filterMap_cons, rowNameOf_rowFor]
    rw [ih]

theorem baselineRows_names (b c : List (String × Nat)) :
    (baselineRows b c).filterMap rowNameOf = (sortPairs b).map Prod.fst :=
  filterMap_rowNameOf_map_rowFor c (sortPairs b)

theorem newRows_names (b c : List (String × Nat)) :
    (newRows b c).filterMap rowNameOf = sortNames (newKeys b c) := by
  unfold newRows
  induction sortNames (newKeys b c) with
  | nil => rfl
  | cons n t ih =>
    simp only [List.map_cons, List.filterMap_cons, rowNameOf]
    rw [ih]

theorem canReach_ge_two {r : List Char} {c : Nat} (h : canReach r c = true) :
    2 ≤ c := by
  unfold canReach at h
  rw [List.any_eq_true] at h
  obtain ⟨b, hb, hcond⟩ := h
  rw [Bool.and_eq_true] at hcond
  obtain ⟨-, hinner⟩ := hcond
  rw [List.any_eq_true] at hinner
  obtain ⟨a, -, hc2⟩ := hinner
  simp only [Bool.and_eq_true, decide_eq_true_eq] at hc2
  obtain ⟨⟨⟨h1a, hab⟩, -⟩, -⟩ := hc2
  have hbc : b < c := List.mem_range.mp hb
  omega

theorem canReach_zero (r : List Char) : canReach r 0 = false := rfl

theorem canReach_one (r : List Char) : canReach r 1 = false := by
  simp [canReach]

theorem findBench_eq_none (r : List Char)
    (h : ∀ c, c ≤ r.length → 2 ≤ c → benchAt (r.drop c) = none) :
    findBench r = none := by
  unfold findBench
  rw [List.findSome?_eq_none_iff]
  intro c hc
  rw [List.mem_reverse, List.mem_range] at hc
  rcases Nat.lt_or_ge c 2 with h2 | h2
  · interval_cases c
    · simp [canReach_zero]
    · simp [canReach_one]
  · rw [h c (by omega) h2]
    simp

theorem takeWhile_append_eq_of_all {p : Char → Bool} :
    ∀ (xs : List Char), xs.all p = true → ∀ (y : Char), p y = false →
      ∀ (ys : List Char), (xs ++ y :: ys).takeWhile p = xs := by
  intro xs
  induction xs with
  | nil =>
    intro _ y hy ys
    simp [List.takeWhile_cons, hy]
  | cons x xt ih =>
    intro hall y hy ys
    rw [List.all_cons, Bool.and_eq_true] at hall
    simp [List.cons_append, List.takeWhile_cons, hall.1, ih hall.2 y hy ys]

theorem parseLine_cons_eq (c0 : Char) (r0 : List Char) :
    parseLine ('t' :: 'e' :: 's' :: 't' :: c0 :: r0) =
      (if isSpaceChar c0 then
        let r1 := r0.dropWhile isSpaceChar
        let name := r1.takeWhile (fun ch => !(isSpaceChar ch))
        if name.isEmpty then none
        else
          match findBench (r1.drop name.length) with
          | some d => some (String.mk name, d)
          | none => none
      else none) := rfl

theorem regrOf_eq_some {c : List (String × Nat)} {pn : String} {pb : Nat}
    {nd : String × ℚ} :
    regrOf c (pn, pb) = some nd ↔
      ∃ curr, List.lookup pn c = some curr ∧
        REGRESSION_THRESHOLD < deltaOf pb curr ∧ nd = (pn, deltaOf pb curr) := by
  cases hlk : List.lookup pn c with
  | none => simp [regrOf, hlk]
  | some curr =>
    by_cases hlt : REGRESSION_THRESHOLD < deltaOf pb curr
    · simp [regrOf, hlk, hlt, eq_comm]
    · simp [regrOf, hlk, hlt]

theorem mem_regressionsList_iff {b c : List (String × Nat)}
    (hb : (b.map Prod.fst).Nodup) {name : String} {dl : ℚ} :
    (name, dl) ∈ regressionsList b c ↔
      ∃ base curr, List.lookup name b = some base ∧ List.lookup name c = some curr ∧
        REGRESSION_THRESHOLD < deltaOf base curr ∧ dl = deltaOf base curr := by
  unfold regressionsList
  rw [List.mem_filterMap]
  constructor
  · rintro ⟨p, hp, hfp⟩
    obtain ⟨pn, pb⟩ := p
    have hpb : (pn, pb) ∈ b := (sortPairs_perm b).mem_iff.mp hp
    rcases regrOf_eq_some.mp hfp with ⟨curr, hc1, hlt, hnd⟩
    have h1 : pn = name := (congrArg Prod.fst hnd).symm
    subst h1
    have hlkb : List.lookup pn b = some pb := lookup_eq_some_of_mem_nodup hb hpb
    exact ⟨pb, curr, hlkb, hc1, hlt, congrArg Prod.snd hnd⟩
  · rintro ⟨base, curr, hb1, hc1, hlt, rfl⟩
    refine ⟨(name, base), (sortPairs_perm b).mem_iff.mpr (mem_of_lookup_eq_some hb1), ?_⟩
    exact regrOf_eq_some.mpr ⟨curr, hc1, hlt, rfl⟩

/-! ## Claim theorems -/

/-- C7: exactly one formatted row is emitted per baseline name regardless of
its classification, in strictly ascending lexical name order, and the rows
for benchmarks present only in the current report likewise appear once each
in strictly ascending lexical name order. -/
theorem c7_rows_sorted (b c : List (String × Nat))
    (hb : (b.map Prod.fst).Nodup) :
    ((baselineRows b c).filterMap rowNameOf).Perm (b.map Prod.fst) ∧
    ((baselineRows b c).filterMap rowNameOf).Pairwise (· < ·) ∧
    (baselineRows b c).length = b.length ∧
    ((newRows b c).filterMap rowNameOf).Perm (newKeys b c) ∧
    ((newRows b c).filterMap rowNameOf).Pairwise (· < ·) ∧
    (newRows b c).length = (newKeys b c).length := by
  have hperm : (((sortPairs b).map Prod.fst)).Perm (b.map Prod.fst) :=
    (sortPairs_perm b).map Prod.fst
  have hle : ((sortPairs b).map Prod.fst).Pairwise (· ≤ ·) :=
    List.Pairwise.map Prod.fst (fun _ _ h => h) (sortPairs_pairwise b)
  have hnodupB : ((sortPairs b).map Prod.fst).Nodup := hperm.nodup_iff.mpr hb
  have hnodupNew : (newKeys b c).Nodup := List.nodup_dedup _
  have hnodupSN : (sortNames (newKeys b c)).Nodup :=
    (sortNames_perm _).nodup_iff.mpr hnodupNew
  rw [baselineRows_names, newRows_names]
  refine ⟨hperm, pairwise_lt_of_le_nodup hle hnodupB, ?_, sortNames_perm _,
    pairwise_lt_of_le_nodup (sortNames_pairwise _) hnodupSN, ?_⟩
  · unfold baselineRows sortPairs
    simp
  · unfold newRows sortNames
    simp

/-- C8: the set of names appearing in the emitted rows is exactly the union
of the names of the two reports, and each such name occurs in exactly one
row. -/
theorem c8_names_partition (b c : List (String × Nat))
    (hb : (b.map Prod.fst).Nodup) :
    (∀ n, n ∈ reportNames b c ↔ n ∈ b.map Prod.fst ∨ n ∈ c.map Prod.fst) ∧
    (∀ n, n ∈ reportNames b c → (reportNames b c).count n = 1) := by
  have hsplit : reportNames b c = ((sortPairs b).map Prod.fst) ++ sortNames (newKeys b c) := by
    unfold reportNames
    rw [List.filterMap_append, baselineRows_names, newRows_names]
  have hperm : (reportNames b c).Perm ((b.map Prod.fst) ++ newKeys b c) := by
    rw [hsplit]
    exact ((sortPairs_perm b).map Prod.fst).append (sortNames_perm _)
  have hmemNew : ∀ n, n ∈ newKeys b c ↔ (n ∈ c.map Prod.fst ∧ n ∉ b.map Prod.fst) := by
    intro n
    unfold newKeys
    rw [List.mem_dedup, List.mem_filter]
    constructor
    · rintro ⟨h1, h2⟩
      refine ⟨h1, ?_⟩
      rw [Option.isNone_iff_eq_none] at h2
      exact lookup_eq_none_iff_not_mem.mp h2
    · rintro ⟨h1, h2⟩
      refine ⟨h1, ?_⟩
      rw [Option.isNone_iff_eq_none]
      exact lookup_eq_none_iff_not_mem.mpr h2
  constructor
  · intro n
    rw [hperm.mem_iff, List.mem_append, hmemNew n]
    constructor
    · rintro (h | ⟨h, _⟩)
      · exact Or.inl h
      · exact Or.inr h
    · rintro (h | h)
      · exact Or.inl h
      · by_cases hbmem : n ∈ b.map Prod.fst
        · exact Or.inl hbmem
        · exact Or.inr ⟨h, hbmem⟩
  · intro n hn
    have hnodup : ((b.map Prod.fst) ++ newKeys b c).Nodup := by
      refine List.Nodup.append hb (List.nodup_dedup _) ?_
      intro a ha hanew
      exact ((hmemNew a).mp hanew).2 ha
    exact List.count_eq_one_of_mem (hperm.nodup_iff.mpr hnodup) hn

/-- C3: for a matched pair with positive baseline, membership in the
regressions list is decided by a strict comparison against the 0.10
threshold; a relative delta exactly equal to the threshold is not a
regression. -/
theorem c3_threshold_strict (b c : List (String × Nat))
    (hb : (b.map Prod.fst).Nodup) (name : String) (base curr : Nat)
    (h1 : List.lookup name b = some base) (h2 : List.lookup name c = some curr)
    (h3 : 0 < base) :
    ((name, deltaOf base curr) ∈ regressionsList b c ↔
      REGRESSION_THRESHOLD < deltaOf base curr) ∧
    (deltaOf base curr = REGRESSION_THRESHOLD →
      ∀ dl, (name, dl) ∉ regressionsList b c) := by
  constructor
  · constructor
    · intro hmem
      rcases (mem_regressionsList_iff hb).mp hmem with ⟨base2, curr2, hb2, hc2, hlt, _⟩
      have hbase : base2 = base := by
        rw [h1] at hb2
        exact (Option.some.injEq _ _ ▸ hb2).symm
      have hcurr : curr2 = curr := by
        rw [h2] at hc2
        exact (Option.some.injEq _ _ ▸ hc2).symm
      rw [hbase, hcurr] at hlt
      exact hlt
    · intro hlt
      exact (mem_regressionsList_iff hb).mpr ⟨base, curr, h1, h2, hlt, rfl⟩
  · intro heq dl hmem
    rcases (mem_regressionsList_iff hb).mp hmem with ⟨base2, curr2, hb2, hc2, hlt, _⟩
    have hbase : base2 = base := by
      rw [h1] at hb2
      exact (Option.some.injEq _ _ ▸ hb2).symm
    have hcurr : curr2 = curr := by
      rw [h2] at hc2
      exact (Option.some.injEq _ _ ▸ hc2).symm
    rw [hbase, hcurr, heq] at hlt
    exact lt_irrefl _ hlt

/-- C6: the relative delta of a matched pair is
`(current − baseline) / baseline` when the baseline duration is positive,
and exactly `0` when the baseline duration is zero — in which case the pair
is classified neutral and never enters the regressions list. -/
theorem c6_delta_formula (b c : List (String × Nat))
    (hb : (b.map Prod.fst).Nodup) (name : String) (base curr : Nat)
    (h1 : List.lookup name b = some base) (h2 : List.lookup name c = some curr) :
    (0 < base → deltaOf base curr = ((curr : ℚ) - (base : ℚ)) / (base : ℚ)) ∧
    (base = 0 → deltaOf base curr = 0 ∧
      markerOf (deltaOf base curr) = Marker.neutral ∧
      ∀ dl, (name, dl) ∉ regressionsList b c) := by
  constructor
  · intro hpos
    unfold deltaOf
    rw [if_pos hpos]
  · intro hzero
    subst hzero
    have hd0 : deltaOf 0 curr = 0 := by
      unfold deltaOf
      rw [if_neg (lt_irrefl 0)]
    refine ⟨hd0, ?_, ?_⟩
    · rw [hd0]
      unfold markerOf
      rw [if_neg (by norm_num [REGRESSION_THRESHOLD]),
        if_neg (by norm_num [IMPROVEMENT_THRESHOLD])]
    · intro dl hmem
      rcases (mem_regressionsList_iff hb).mp hmem with ⟨base2, curr2, hb2, hc2, hlt, _⟩
      have hbase : base2 = 0 := by
        rw [h1] at hb2
        exact (Option.some.injEq _ _ ▸ hb2).symm
      rw [hbase] at hlt
      have : deltaOf 0 curr2 = 0 := by
        unfold deltaOf
        rw [if_neg (lt_irrefl 0)]
      rw [this] at hlt
      exact absurd hlt (by norm_num [REGRESSION_THRESHOLD])

theorem parse_bencher_go_all_unmatched :
    ∀ (lines : List (List Char)) (acc : List (String × Nat)),
      (∀ l ∈ lines, parseLine l = none) →
      lines.foldlM processLine acc = Except.ok acc := by
  intro lines
  induction lines with
  | nil => intro acc _; rfl
  | cons l t ih =>
    intro acc h
    have hl : parseLine l = none := h l (List.mem_cons_self _ _)
    have hstep : processLine acc l = Except.ok acc := by
      unfold processLine
      rw [hl]
    rw [List.foldlM_cons, hstep]
    exact ih acc (fun l2 hl2 => h l2 (List.mem_cons_of_mem _ hl2))

/-- C5: a line the pattern matches with name `N` and duration text `D`
(numeric text: at least one digit survives the separator strip) updates the
mapping with `N ↦ int(D with separators stripped)`, a natural number; a
line the pattern does not match contributes no entry; an input with no
matching lines yields the empty mapping. -/
theorem c5_parse_semantics (acc : List (String × Nat)) (l : List Char)
    (lines : List (List Char)) (n : String) (d : List Char) :
    (parseLine l = some (n, d) → stripCommas d ≠ [] →
      processLine acc l = Except.ok (dictInsert acc n (digitsToNat (stripCommas d)))) ∧
    (parseLine l = none → processLine acc l = Except.ok acc) ∧
    ((∀ l2 ∈ lines, parseLine l2 = none) → parse_bencher lines = Except.ok []) := by
  refine ⟨?_, ?_, ?_⟩
  · intro hl hd
    have hie : (stripCommas d).isEmpty = false := by
      simpa [List.isEmpty_iff] using hd
    simp [processLine, hl, pyInt, hie]
  · intro hl
    unfold processLine
    rw [hl]
  · intro h
    exact parse_bencher_go_all_unmatched lines [] h

/-- C2: `parse_bencher` is not total — on a line the pattern matches with a
duration group consisting solely of a comma, `int("")` raises `ValueError`.
The theorem evaluates the code at the failing input: the regex matches
`"test foo x bench: , ns/iter"` with duration group `","`, and the parse
aborts with the exception instead of skipping or mapping the line. -/
theorem c2_parse_bencher_raises :
    parseLine poisonLine = some ("foo", [',']) ∧
    stripCommas [','] = [] ∧
    parse_bencher [poisonLine] = Except.error () :=
  ⟨rfl, rfl, rfl⟩

/-- C1: with a well-formed argument count and a baseline file containing
the poison line, `main` dies with an uncaught `ValueError` and the process
exits with status 1 although no benchmark was classified as regressed —
the claimed equivalence `exit 1 ↔ usage error ∨ regression` fails. -/
theorem c1_crash_exit_one :
    (["prog", "base.txt", "cur.txt"] : List String).length = 3 ∧
    runMain ["prog", "base.txt", "cur.txt"] fsPoisonBase = Except.error () ∧
    osExitCode (runMain ["prog", "base.txt", "cur.txt"] fsPoisonBase) = 1 :=
  ⟨rfl, rfl, rfl⟩

/-- C4: the baseline file parses to the empty mapping, yet the program does
not reach the short-circuit: the current file's poison line raises during
parsing (which happens before the empty-baseline test), so the process
exits with status 1 instead of the claimed status 0. -/
theorem c4_empty_baseline_crash :
    parse_bencher (fsPoisonCur "base.txt") = Except.ok [] ∧
    runMain ["prog", "base.txt", "cur.txt"] fsPoisonCur = Except.error () ∧
    osExitCode (runMain ["prog", "base.txt", "cur.txt"] fsPoisonCur) = 1 :=
  ⟨rfl, rfl, rfl⟩

/-- The exit-status characterization that does hold: when both files parse
without raising, the exit status is 1 exactly for a wrong argument count or
a non-empty regressions list, and 0 otherwise; a wrong argument count
produces the usage message without consulting the file system. -/
theorem runMain_ok (argv : List String) (fs : String → List (List Char))
    (b c : List (String × Nat)) (hlen : argv.length = 3)
    (hb : parse_bencher (fs (argv.getD 1 "")) = Except.ok b)
    (hc : parse_bencher (fs (argv.getD 2 "")) = Except.ok c) :
    runMain argv fs = Except.ok (compareReports b c) := by
  unfold runMain
  rw [if_neg (by simp [hlen])]
  simp only [hb, hc]
  rfl

theorem exit_status_characterization (argv : List String)
    (fs : String → List (List Char)) (b c : List (String × Nat))
    (hb : parse_bencher (fs (argv.getD 1 "")) = Except.ok b)
    (hc : parse_bencher (fs (argv.getD 2 "")) = Except.ok c) :
    osExitCode (runMain argv fs) =
      (if argv.length ≠ 3 ∨ regressionsList b c ≠ [] then 1 else 0) := by
  by_cases hlen : argv.length = 3
  · rw [runMain_ok argv fs b c hlen hb hc]
    have hos : osExitCode (Except.ok (compareReports b c)) = (compareReports b c).2 := rfl
    rw [hos]
    unfold compareReports
    by_cases hbe : b.isEmpty
    · have hb0 : b = [] := List.isEmpty_iff.mp hbe
      have hreg : regressionsList b c = [] := by
        rw [hb0]
        simp [regressionsList, sortPairs]
      rw [if_pos hbe, if_neg (by simp [hlen, hreg])]
    · rw [if_neg hbe]
      by_cases hreg : (regressionsList b c).isEmpty
      · rw [if_pos hreg, if_neg (by simp [hlen, List.isEmpty_iff.mp hreg])]
      · rw [if_neg hreg,
          if_pos (Or.inr (by simpa [List.isEmpty_iff] using hreg))]
  · have hlen2 : argv.length ≠ 3 := hlen
    unfold runMain
    rw [if_pos hlen2, if_pos (Or.inl hlen2)]
    rfl

/-- C4 (intended behavior): when the current report parses without raising
and the baseline mapping is empty, the program emits the skip notice and
exits with status 0 regardless of the current report's contents. -/
theorem empty_baseline_short_circuit (argv : List String)
    (fs : String → List (List Char)) (c : List (String × Nat))
    (hlen : argv.length = 3)
    (hb : parse_bencher (fs (argv.getD 1 "")) = Except.ok [])
    (hc : parse_bencher (fs (argv.getD 2 "")) = Except.ok c) :
    runMain argv fs = Except.ok ([OutLine.noBaseline], 0) := by
  rw [runMain_ok argv fs [] c hlen hb hc]
  rfl

/-- C9 counterexample: a run with one matched and one new benchmark.  The
complete emitted output is the seven listed lines: title, column header,
separator, one matched row, one `NEW` row, a blank line and the pass line —
no header line for the group of new benchmarks exists. -/
theorem c9_no_new_header_counterexample :
    compareReports [("a", 100)] [("a", 100), ("b", 50)] =
      ([OutLine.header, OutLine.columnHeader, OutLine.separator,
        OutLine.matchedRow "a" 100 100 0 Marker.neutral,
        OutLine.newRow "b" 50, OutLine.blank, OutLine.passLine], 0) := by
  norm_num [compareReports, baselineRows, newRows, newKeys, sortPairs, sortNames,
    regressionsList, summaryOf, rowFor, regrOf, deltaOf, markerOf,
    REGRESSION_THRESHOLD, IMPROVEMENT_THRESHOLD, List.lookup]
  rfl

/-- C9 amended: benchmarks present only in the current report each produce
exactly one `NEW` row, emitted directly after the baseline section; no
separate header line introduces the group (the only heading lines of the
report are the title, the column header and the separator at the top). -/
theorem c9_amended_new_rows (b c : List (String × Nat)) (hb : b ≠ []) :
    (compareReports b c).1 =
      [OutLine.header, OutLine.columnHeader, OutLine.separator]
        ++ baselineRows b c ++ newRows b c ++ [OutLine.blank] ++ summaryOf b c ∧
    (∀ l ∈ newRows b c, ∃ nm v, l = OutLine.newRow nm v) ∧
    (newRows b c).length = (newKeys b c).length := by
  refine ⟨?_, ?_, ?_⟩
  · unfold compareReports
    rw [if_neg (by simpa [List.isEmpty_iff] using hb)]
  · intro l hl
    rcases List.mem_map.mp hl with ⟨nm, _, rfl⟩
    exact ⟨nm, _, rfl⟩
  · unfold newRows sortNames
    simp

/-- C10 counterexample: in `"test foo  bench: 100 ns/iter"` the name token
`foo` is followed by the `bench:` marker with only whitespace in between
(two spaces, no intervening token), yet the line parses to the entry
`foo ↦ 100`. -/
theorem c10_gap_counterexample :
    parse_bencher [twoSpaceLine] = Except.ok [("foo", 100)] :=
  rfl

/-- C10 amended: the recognized shape does not require an extra token
between the name and the matched `bench:` marker — the middle `\s+.*\s+` of
the pattern only forces the matched `bench:` tail to sit at offset at least
2 after the name (first conjunct: any reachable offset is `≥ 2`; third
conjunct: two tabs with no intervening token already produce an entry).
Consequently a line in which exactly one whitespace character separates the
name from the only viable `bench:` tail of the line contributes no entry
(second conjunct, universal over the name, the two whitespace characters
and the tail), while a second `bench:` occurrence later in the line is
still reachable by the greedy `.*` (fourth conjunct).  The literal `test`
must still be the first token at the very start of the line (last two
conjuncts). -/
theorem c10_amended_shape :
    (∀ (r : List Char) (c : Nat), canReach r c = true → 2 ≤ c) ∧
    (∀ (w1 w2 : Char) (name tail : List Char),
      isSpaceChar w1 = true → isSpaceChar w2 = true →
      name ≠ [] → name.all (fun ch => !(isSpaceChar ch)) = true →
      (∀ c, c ≤ (w2 :: ('b' :: 'e' :: 'n' :: 'c' :: 'h' :: ':' :: tail)).length →
        2 ≤ c →
        benchAt ((w2 :: ('b' :: 'e' :: 'n' :: 'c' :: 'h' :: ':' :: tail)).drop c) = none) →
      parseLine ('t' :: 'e' :: 's' :: 't' :: w1 ::
        (name ++ w2 :: ('b' :: 'e' :: 'n' :: 'c' :: 'h' :: ':' :: tail))) = none) ∧
    parse_bencher [tabGapLine] = Except.ok [("foo", 55)] ∧
    parse_bencher [doubleBenchLine] = Except.ok [("foo", 2)] ∧
    parseLine leadingSpaceLine = none ∧
    parseLine gluedTestLine = none := by
  refine ⟨?_, ?_, rfl, rfl, rfl, rfl⟩
  · intro r c h
    exact canReach_ge_two h
  · intro w1 w2 name tail hw1 hw2 hname hnamews hnob
    obtain ⟨nh, nt, rfl⟩ : ∃ nh nt, name = nh :: nt := by
      cases name with
      | nil => exact absurd rfl hname
      | cons nh nt => exact ⟨nh, nt, rfl⟩
    have hnall := hnamews
    rw [List.all_cons, Bool.and_eq_true] at hnall
    have hnh : isSpaceChar nh = false := by
      simpa using hnall.1
    have hw2f : (fun ch => !(isSpaceChar ch)) w2 = false := by
      simp [hw2]
    have htake := takeWhile_append_eq_of_all (nh :: nt) hnamews w2 hw2f
      ('b' :: 'e' :: 'n' :: 'c' :: 'h' :: ':' :: tail)
    rw [List.cons_append] at htake
    have hfind := findBench_eq_none
      (w2 :: ('b' :: 'e' :: 'n' :: 'c' :: 'h' :: ':' :: tail)) hnob
    rw [parseLine_cons_eq]
    simp [hw1, List.cons_append, List.dropWhile_cons, hnh, htake,
      List.drop_left, hfind]

/-- Witness for the amended C10: the single-gap clause applied to the line
`"test foo bench: 100 ns/iter"` (one space between `foo` and the line's
only `bench:`), which contributes no entry. -/
theorem c10_amended_shape_witness :
    parseLine oneSpaceLine = none :=
  c10_amended_shape.2.1 ' ' ' ' "foo".toList " 100 ns/iter".toList rfl rfl
    (by decide) (by decide) (by decide)

/-! ## Witnesses -/

/-- Witness for C3 at the boundary pair 10 → 11, whose relative delta is
exactly the 0.10 threshold. -/
theorem c3_threshold_strict_witness :
    ((("a" : String), deltaOf 10 11) ∈ regressionsList [("a", 10)] [("a", 11)] ↔
      REGRESSION_THRESHOLD < deltaOf 10 11) ∧
    (deltaOf 10 11 = REGRESSION_THRESHOLD →
      ∀ dl, (("a" : String), dl) ∉ regressionsList [("a", 10)] [("a", 11)]) :=
  c3_threshold_strict [("a", 10)] [("a", 11)] (by decide) "a" 10 11 rfl rfl (by decide)

/-- Witness for C5 on the line `"test foo x bench: 1,200 ns/iter"` and on a
non-matching input. -/
theorem c5_parse_semantics_witness :
    processLine [] goodLine =
      Except.ok (dictInsert [] "foo" (digitsToNat (stripCommas ['1', ',', '2', '0', '0']))) ∧
    parse_bencher [['g']] = Except.ok [] :=
  ⟨(c5_parse_semantics [] goodLine [['g']] "foo" ['1', ',', '2', '0', '0']).1 rfl
      (by decide),
   (c5_parse_semantics [] goodLine [['g']] "foo" ['1', ',', '2', '0', '0']).2.2
      (by decide)⟩

/-- Witness for C6 on a matched pair with zero baseline duration. -/
theorem c6_delta_formula_witness :
    (0 < 0 → deltaOf 0 7 = ((7 : ℚ) - (0 : ℚ)) / (0 : ℚ)) ∧
    (0 = 0 → deltaOf 0 7 = 0 ∧ markerOf (deltaOf 0 7) = Marker.neutral ∧
      ∀ dl, (("z" : String), dl) ∉ regressionsList [("z", 0)] [("z", 7)]) :=
  c6_delta_formula [("z", 0)] [("z", 7)] (by decide) "z" 0 7 rfl rfl

/-- Witness for C7 on a two-entry baseline given out of order and a current
report with one matched and one new benchmark. -/
theorem c7_rows_sorted_witness :
    ((baselineRows [("b", 5), ("a", 3)] [("a", 4), ("c", 9)]).filterMap rowNameOf).Perm
      ([("b", 5), ("a", 3)].map Prod.fst) ∧
    ((baselineRows [("b", 5), ("a", 3)] [("a", 4), ("c", 9)]).filterMap rowNameOf).Pairwise
      (· < ·) ∧
    (baselineRows [("b", 5), ("a", 3)] [("a", 4), ("c", 9)]).length =
      ([("b", 5), ("a", 3)] : List (String × Nat)).length ∧
    ((newRows [("b", 5), ("a", 3)] [("a", 4), ("c", 9)]).filterMap rowNameOf).Perm
      (newKeys [("b", 5), ("a", 3)] [("a", 4), ("c", 9)]) ∧
    ((newRows [("b", 5), ("a", 3)] [("a", 4), ("c", 9)]).filterMap rowNameOf).Pairwise
      (· < ·) ∧
    (newRows [("b", 5), ("a", 3)] [("a", 4), ("c", 9)]).length =
      (newKeys [("b", 5), ("a", 3)] [("a", 4), ("c", 9)]).length :=
  c7_rows_sorted _ _ (by decide)

/-- Witness for C8 on the same pair of reports as the C7 witness. -/
theorem c8_names_partition_witness :
    (∀ n, n ∈ reportNames [("b", 5), ("a", 3)] [("a", 4), ("c", 9)] ↔
      n ∈ ([("b", 5), ("a", 3)] : List (String × Nat)).map Prod.fst ∨
        n ∈ ([("a", 4), ("c", 9)] : List (String × Nat)).map Prod.fst) ∧
    (∀ n, n ∈ reportNames [("b", 5), ("a", 3)] [("a", 4), ("c", 9)] →
      (reportNames [("b", 5), ("a", 3)] [("a", 4), ("c", 9)]).count n = 1) :=
  c8_names_partition _ _ (by decide)

/-- Witness for the amended C9 on a report pair with one new benchmark. -/
theorem c9_amended_new_rows_witness :
    (compareReports [("a", 1)] [("b", 2)]).1 =
      [OutLine.header, OutLine.columnHeader, OutLine.separator]
        ++ baselineRows [("a", 1)] [("b", 2)] ++ newRows [("a", 1)] [("b", 2)]
        ++ [OutLine.blank] ++ summaryOf [("a", 1)] [("b", 2)] ∧
    (∀ l ∈ newRows [("a", 1)] [("b", 2)], ∃ nm v, l = OutLine.newRow nm v) ∧
    (newRows [("a", 1)] [("b", 2)]).length = (newKeys [("a", 1)] [("b", 2)]).length :=
  c9_amended_new_rows _ _ (by decide)

end BenchCompare
